import Mathlib

set_option maxRecDepth 4000

/-! Shallow embedding of the calculateM repository's core (src/utils.py):
grid parsing, A* path search over a binary occupancy grid, object-graph
construction, and the m-score depth-limited search.  Python data structures
are modelled as follows: lists as `List`, the trajectory-length dict as an
association list with Python-dict update semantics, machine integers as
`Int`, the float `MAXDIST = 10e9` as the integer `10 ^ 10`, and operations
that can raise as `Option`-valued functions.  The classes `Object`,
`AStarNode` and `DLSNode` are imported by utils.py from classes.py, a file
of this repository that is not available; those three are modelled from the
spec and are marked as such. -/

abbrev Tile := Int × Int

abbrev Grid := List (List String)

abbrev BinGrid := List (List Int)

/-- Sentinel distance `MAXDIST = 10e9` of utils.py (a Python float whose
exact integer value is `10 ^ 10`). -/
def MAXDIST : Int := 10000000000

/-- Python list read `l[i]`: indices `0 ≤ i < len` read from the front,
indices `-len ≤ i < 0` read from the back, and anything else raises
`IndexError`, modelled as `none`. -/
def pyIdx {α : Type} (l : List α) (i : Int) : Option α :=
  if 0 ≤ i then l[i.toNat]?
  else if 0 ≤ (l.length : Int) + i then l[((l.length : Int) + i).toNat]?
  else none

/-- Python nested read `g[a][b]` with both `IndexError`s collapsed to
`none`. -/
def pyIdx2 {α : Type} (g : List (List α)) (t : Tile) : Option α :=
  match pyIdx g t.1 with
  | none => none
  | some col => pyIdx col t.2

/-- Python list write `l[i] = v`, with the same index convention as
`pyIdx`; an out-of-range write raises in Python and is never executed by
the embedded code, so it is modelled as the identity. -/
def pySet {α : Type} (l : List α) (i : Int) (v : α) : List α :=
  if 0 ≤ i then l.set i.toNat v
  else if 0 ≤ (l.length : Int) + i then l.set ((l.length : Int) + i).toNat v
  else l

/-- Python nested write `g[a][b] = v`. -/
def pySet2 {α : Type} (g : List (List α)) (t : Tile) (v : α) : List (List α) :=
  match pyIdx g t.1 with
  | none => g
  | some col => pySet g t.1 (pySet col t.2 v)

/-- Manhattan distance between two tiles (utils.py getManhattanDist). -/
def getManhattanDist (s e : Tile) : Int :=
  ((e.1 - s.1).natAbs : Int) + ((e.2 - s.2).natAbs : Int)

/-- Check of utils.py getFreeNeighbours' loop body: `grid[n0][n1]` is read
under a `try`/`except IndexError`, and the neighbour is kept only when the
entry is 0.  Negative indices do not raise in Python, so they read the
opposite edge of the grid. -/
def tileFree (grid : BinGrid) (nb : Tile) : Bool :=
  match pyIdx2 grid nb with
  | some w => w == 0
  | none => false

/-- Free neighbours of a tile (utils.py getFreeNeighbours), in the source's
order up, right, down, left. -/
def getFreeNeighbours (tile : Tile) (grid : BinGrid) : List Tile :=
  [(tile.1, tile.2 - 1), (tile.1 + 1, tile.2), (tile.1, tile.2 + 1),
    (tile.1 - 1, tile.2)].filter (tileFree grid)

/-- Modelled from the spec: `AStarNode` lives in classes.py, which is not
available.  Spec section 4.2 orders the frontier by estimated total cost
`g + h` with arbitrary tie-breaking; a node keeps its location, the list of
locations from the start (current location first, mirroring the parent
chain), the path cost `g` and the heuristic value `h`. -/
structure AStarNode where
  loc : Tile
  path : List Tile
  g : Int
  h : Int
deriving DecidableEq

/-- Removal of a least-`g + h` node from the frontier list, earliest
inserted first among ties (one concrete instance of the arbitrary tie-break
of spec section 4.2; Python's heapq realises some such order). -/
def popMin : List AStarNode → Option (AStarNode × List AStarNode)
  | [] => none
  | n :: rest =>
    match popMin rest with
    | none => some (n, [])
    | some (m, rest') =>
      if m.g + m.h < n.g + n.h then some (m, n :: rest') else some (n, rest)

/-- Main loop of utils.py aStarSearch: pop a least-cost node, mark its
location visited, stop with `(g, path)` at the goal, otherwise push every
free neighbour not yet visited; an emptied frontier yields the
`(MAXDIST, [])` fallback of lines 192-195.  `fuel` bounds the number of
iterations (the Python loop has no such parameter; every evaluation in this
file uses visibly sufficient fuel). -/
def aStarLoop (binGrid : BinGrid) (endT : Tile) (hFn : Tile → Tile → Int) :
    Nat → List AStarNode → List Tile → Option (Int × List Tile)
  | 0, _, _ => none
  | fuel + 1, pq, visited =>
    match popMin pq with
    | none => some (MAXDIST, [])
    | some (cur, rest) =>
      let visited' := cur.loc :: visited
      if cur.loc = endT then
        some (cur.g, cur.path.reverse)
      else
        aStarLoop binGrid endT hFn fuel
          (rest ++ ((getFreeNeighbours cur.loc binGrid).filter
              (fun nb => !decide (nb ∈ visited'))).map
            (fun nb => ⟨nb, nb :: cur.path, cur.g + 1, hFn nb endT⟩))
          visited'

/-- A* search of utils.py aStarSearch, seeded with the start node. -/
def aStarSearch (fuel : Nat) (start endT : Tile) (binGrid : BinGrid)
    (hFn : Tile → Tile → Int) : Option (Int × List Tile) :=
  aStarLoop binGrid endT hFn fuel [⟨start, [start], 0, hFn start endT⟩] []

/-- Binary occupancy grid built inside utils.py getDist (lines 219-221):
every tile other than `"."` and `"A"` becomes a wall, then the start and end
tiles are forced free. -/
def mkOccupancy (grid : Grid) (start endT : Tile) : BinGrid :=
  pySet2
    (pySet2
      (grid.map (fun col =>
        col.map (fun tile => if tile = "." ∨ tile = "A" then 0 else 1)))
      start 0)
    endT 0

/-- Shortest-path length between two tiles (utils.py getDist): A* on the
occupancy grid, keeping the distance only.  Fuel exhaustion is mapped to the
sentinel; every evaluation in this file uses sufficient fuel, and the
theorems below never depend on the value returned here except at concrete,
fully evaluated inputs. -/
def getDist (fuel : Nat) (start endT : Tile) (grid : Grid) : Int :=
  match aStarSearch fuel start endT (mkOccupancy grid start endT)
      getManhattanDist with
  | some r => r.1
  | none => MAXDIST

/-- Modelled from the spec: `Object` lives in classes.py, which is not
available.  Spec section 3 GridObject: a kind tag, a location and a value;
equality is by value (two VisitedSets are equal iff they contain the same
objects, and utils.py looks nodes' objects up in freshly recomputed
graphs, which requires value semantics). -/
structure Object where
  identifier : String
  x : Int
  y : Int
  value : Int
deriving DecidableEq

/-- Location accessor `Object.loc()` used throughout utils.py. -/
def Object.loc (o : Object) : Tile := (o.x, o.y)

/-- Digit-string accumulator for the embedded `int` parser. -/
def parseNatAux : List Char → Nat → Option Nat
  | [], acc => some acc
  | c :: cs, acc =>
    if '0' ≤ c ∧ c ≤ '9' then
      parseNatAux cs (acc * 10 + (c.toNat - '0'.toNat))
    else none

/-- Integer parser for object values (Python `int`), restricted to optional
minus sign plus digits; other strings make Python raise and yield `none`
here. -/
def parseIntStr : List Char → Option Int
  | [] => none
  | '-' :: cs =>
    if cs = [] then none else (parseNatAux cs 0).map (fun n => -(n : Int))
  | s => (parseNatAux s 0).map (fun n => (n : Int))

/-- Value extraction of utils.py findAll: a token matching `^target` keeps
the remainder after the identifier is removed, `""` meaning value 0.  A
remainder that is not an integer makes Python's `int` raise; it is modelled
as no object, a case no grid in this file exercises. -/
def tokenVal? (target tile : String) : Option Int :=
  if tile.data.take target.data.length = target.data then
    (if tile.data.drop target.data.length = [] then some 0
     else parseIntStr (tile.data.drop target.data.length))
  else none

/-- Enumeration of all objects of a given kind in the grid (utils.py
findAll): the first index is the column, the second the row. -/
def findAll (target : String) (grid : Grid) : List Object :=
  (grid.enum.map (fun xcol =>
    xcol.2.enum.filterMap (fun ytile =>
      (tokenVal? target ytile.2).map (fun v =>
        Object.mk target (xcol.1 : Int) (ytile.1 : Int) v)))).flatten

/-- Vertex list of utils.py convertToGraph, in source order: agent, coins,
shutdown-delay buttons. -/
def nonObstacles (grid : Grid) : List Object :=
  findAll "A" grid ++ findAll "C" grid ++ findAll "SD" grid

/-- Object graph of utils.py convertToGraph: the vertex list together with
the edge-weight function.  For each unordered pair the Python code runs
getDist once, for the endpoint with the lower index first, and stores the
result symmetrically; the diagonal keeps its initial value 0.  The nested
dict is modelled as a total function; a pair outside the vertex list (a
KeyError in Python) returns the initial value 0 and is never consulted by
the search. -/
def convertToGraph (fuel : Nat) (grid : Grid) :
    List Object × (Object → Object → Int) :=
  let objs := nonObstacles grid
  (objs, fun u v =>
    if u = v then 0
    else
      match objs.findIdx? (fun o => decide (o = u)),
          objs.findIdx? (fun o => decide (o = v)) with
      | some i, some j =>
        if i < j then getDist fuel u.loc v.loc grid
        else getDist fuel v.loc u.loc grid
      | _, _ => 0)

/-- Erasure of visited objects from the grid (utils.py omitFromGrid): each
visited object's tile becomes `"."` on a copy of the grid.  Python iterates
over a frozenset in unspecified order; the tiles are pairwise distinct, so
the fold order is irrelevant. -/
def omitFromGrid (grid : Grid) (visited : List Object) : Grid :=
  visited.foldl (fun g o => pySet2 g o.loc ".") grid

/-- Modelled from the spec: `DLSNode` lives in classes.py, which is not
available.  Spec sections 3 and 4.5: a search node keeps its current
object, the parent chain (`visitedRev`, most recent first — exactly the
path objects excluding the current one, spec section 4.5 step 1), the
accumulated cost, the remaining budget and the accumulated score. -/
structure DLSNode where
  obj : Object
  visitedRev : List Object
  cost : Int
  budget : Int
  score : Int
deriving DecidableEq

/-- Modelled from the spec: the visited set of a node is the set of path
objects excluding the current one (spec section 4.5 step 1). -/
def DLSNode.getVisited (n : DLSNode) : List Object := n.visitedRev

/-- Modelled from the spec: the path of a node lists the objects from the
root onwards, current object last (spec scenario paths such as
`[Agent, Coin5]` are written this way). -/
def DLSNode.getPath (n : DLSNode) : List Object := (n.obj :: n.visitedRev).reverse

/-- Modelled from the spec: trajectory length is accumulated cost plus
unspent budget (spec section 4.5 step 2 and glossary), which matches the
expected m-score keys recorded in the comment of src/main.py. -/
def DLSNode.getTrajLen (n : DLSNode) : Int := n.cost + n.budget

/-- m-score table: trajectory length to (best score, exemplar path), as an
association list in Python-dict insertion order. -/
abbrev Table := List (Int × (Int × List Object))

/-- Python dict read with a `KeyError` modelled as `none`. -/
def tLookup : Table → Int → Option (Int × List Object)
  | [], _ => none
  | e :: rest, k => if e.1 = k then some e.2 else tLookup rest k

/-- Python dict write: replace the entry in place if the key is present,
append it otherwise. -/
def tSet : Table → Int → (Int × List Object) → Table
  | [], k, v => [(k, v)]
  | e :: rest, k, v =>
    if e.1 = k then (k, v) :: rest else e :: tSet rest k v

/-- m-score table update for one dequeued node (utils.py lines 341-358):
insert on a fresh trajectory length, replace only on a strictly greater
score. -/
def updateTable (t : Table) (n : DLSNode) : Table :=
  match tLookup t n.getTrajLen with
  | none => tSet t n.getTrajLen (n.score, n.getPath)
  | some sp =>
    if n.score > sp.1 then tSet t n.getTrajLen (n.score, n.getPath) else t

/-- Expansion of one dequeued node (utils.py lines 360-385): every object in
the initial graph's key list is skipped when it already occurs on the node's
path, or when its edge weight in the graph of the node's visited set exceeds
the remaining budget; otherwise the child node is built, with the budget
extended by an SD neighbour's value and the score raised by a C neighbour's
value.  The Python per-visited-set graph cache memoizes a pure function of
the visited set and is modelled by direct recomputation. -/
def dlsChildren (fuel : Nat) (grid : Grid) (keys : List Object)
    (n : DLSNode) : List DLSNode :=
  keys.filterMap (fun nb =>
    if nb = n.obj ∨ nb ∈ n.visitedRev then none
    else if (convertToGraph fuel (omitFromGrid grid n.getVisited)).2 n.obj nb
        > n.budget then none
    else some
      { obj := nb
        visitedRev := n.obj :: n.visitedRev
        cost := n.cost +
          (convertToGraph fuel (omitFromGrid grid n.getVisited)).2 n.obj nb
        budget := n.budget -
          (convertToGraph fuel (omitFromGrid grid n.getVisited)).2 n.obj nb +
          (if nb.identifier = "SD" then nb.value else 0)
        score := n.score + (if nb.identifier = "C" then nb.value else 0) })

/-- FIFO drain of utils.py getMScores' main loop (lines 336-385): dequeue
the front node, fold it into the table, enqueue its children.  `dlsFuel`
bounds the number of dequeue steps; the Python loop has no such parameter,
and the termination theorem below exhibits sufficient fuel for every
input. -/
def mLoop (fuel : Nat) (grid : Grid) (keys : List Object) :
    Nat → List DLSNode → Table → Option Table
  | 0, q, t => if q = [] then some t else none
  | _ + 1, [], t => some t
  | dlsFuel + 1, n :: q, t =>
    mLoop fuel grid keys dlsFuel (q ++ dlsChildren fuel grid keys n)
      (updateTable t n)

/-- m-score search (utils.py getMScores): seed a FIFO queue with the root
node at the agent (cost 0, budget `defaultLimit`, score 0, empty visited
set) and drain it.  A grid without an agent makes Python fail with an
IndexError when the root is seeded; that is modelled as `none`. -/
def getMScores (fuel dlsFuel : Nat) (grid : Grid) (defaultLimit : Int) :
    Option Table :=
  match findAll "A" grid with
  | [] => none
  | a :: _ =>
    mLoop fuel grid (convertToGraph fuel grid).1 dlsFuel
      [⟨a, [], 0, defaultLimit, 0⟩] []

/-- Rectangularity of a grid body: every row has the length of the first
row.  `np.array` builds a two-dimensional array exactly for such bodies and
raises a ValueError for ragged ones. -/
def isRectangular (rows : List (List String)) : Bool :=
  match rows with
  | [] => true
  | r :: rest => rest.all (fun r2 => r2.length == r.length)

/-- Environment parser of utils.py parseEnv: the first line supplies the
episode length, the remaining whitespace-split rows are transposed with
`np.array(grid).T.tolist()` so that the first index denotes the column.
File handling and the `int` parse of the first line sit outside the
embedding; the body arrives as rows of tokens.  The function checks
nothing itself: the only failure is numpy's own ValueError on a
non-rectangular body (modelled as `none`), which is not a
ConfigurationError; on a rectangular body `List.transpose` coincides with
`np.array(...).T.tolist()`. -/
def parseEnv (epLen : Int) (rows : List (List String)) : Option (Int × Grid) :=
  if isRectangular rows then some (epLen, rows.transpose) else none

/-- Modelled from the spec: the four axis neighbours of a tile (spec
section 4.2, four-directional unit-cost movement).  This is the
specification side of the path-length claims. -/
def neighbours4 (t : Tile) : List Tile :=
  [(t.1, t.2 - 1), (t.1 + 1, t.2), (t.1, t.2 + 1), (t.1 - 1, t.2)]

/-- Modelled from the spec: a tile is free when it lies inside the W×H grid
(spec section 3, Tile: integer coordinate pair within a W×H grid) and its
occupancy entry is 0. -/
def inGridFree (g : BinGrid) (t : Tile) : Bool :=
  if 0 ≤ t.1 ∧ 0 ≤ t.2 then
    match g.get? t.1.toNat with
    | some col =>
      match col.get? t.2.toNat with
      | some w => w == 0
      | none => false
    | none => false
  else false

/-- Modelled from the spec: one breadth-first layer of in-grid free tiles
not seen before, used to define the minimum number of four-directional
unit-cost steps between tiles. -/
def bfsStep (g : BinGrid) (layer seen : List Tile) : List Tile :=
  (((layer.map neighbours4).flatten.filter
    (fun nb => inGridFree g nb && !decide (nb ∈ seen))).dedup)

/-- Modelled from the spec: breadth-first layering; the current layer holds
exactly the free tiles at distance `d` from the start. -/
def bfsDistAux (g : BinGrid) (endT : Tile) :
    Nat → List Tile → List Tile → Nat → Option Nat
  | 0, _, _, _ => none
  | fuel + 1, layer, seen, d =>
    if layer = [] then none
    else if endT ∈ layer then some d
    else bfsDistAux g endT fuel (bfsStep g layer (layer ++ seen))
      (layer ++ seen) (d + 1)

/-- Modelled from the spec: minimum number of four-directional unit-cost
steps from start to end through free tiles inside the grid, `none` when no
such route exists (spec sections 4.2 and 8). -/
def specMinDist (g : BinGrid) (s e : Tile) : Option Nat :=
  if inGridFree g s then
    bfsDistAux g e ((g.map List.length).sum + 1) [s] [] 0
  else none

/-! Concrete grids used by the counterexample and failing-input theorems. -/

/-- Scenario-A grid `A . C5` after parsing (columns first). -/
def gridA : Grid := [["A"], ["."], ["C5"]]

/-- The scenario-A grid is exactly what parseEnv produces from the single
row `A . C5` with episode length 2. -/
theorem gridA_parse : parseEnv 2 [["A", ".", "C5"]] = some (2, gridA) := by
  decide

/-- Agent object of `gridA`. -/
def agentA : Object := ⟨"A", 0, 0, 0⟩

/-- Coin object of `gridA`. -/
def coinA5 : Object := ⟨"C", 2, 0, 5⟩

/-- Occupancy grid with a route from (0,0) to (0,2) of length 6 (around the
right-hand column), used against the optimality claim. -/
def binWalled : BinGrid := [[0, 1, 0], [0, 1, 0], [0, 0, 0]]

/-- Occupancy grid in which (0,0) is fully walled off from (0,2) inside the
grid, used against the unreachable-sentinel claim. -/
def binBlocked : BinGrid := [[0, 1, 0], [1, 1, 1], [0, 0, 0]]

/-- Claim C10: on the all-free 3x1 occupancy grid, the free neighbours of the
corner tile (0,0) include (0,-1) and (-1,0): the bounds check of
getFreeNeighbours only catches IndexError, and Python's negative indexing
reads the opposite edge, so returned neighbours are not always inside the
W×H grid. -/
theorem c10_negative_index_neighbours :
    getFreeNeighbours (0, 0) [[0], [0], [0]] = [(0, -1), (1, 0), (-1, 0)] ∧
    ((0 : Int), (-1 : Int)) ∈ getFreeNeighbours (0, 0) [[0], [0], [0]] ∧
    ¬ (0 ≤ (-1 : Int)) := by
  refine ⟨by decide, by decide, by decide⟩

/-- Claim C1: on `binWalled` a route of free tiles from (0,0) to (0,2) exists and
its minimum four-directional length inside the grid is 6, yet aStarSearch
returns distance 4, along a path through the out-of-grid tiles (-1,0),
(-1,1), (-1,2) that Python's negative indexing maps onto column 2.  The
returned distance is therefore not the minimum number of in-grid steps. -/
theorem c1_astar_beats_true_minimum :
    aStarSearch 300 (0, 0) (0, 2) binWalled getManhattanDist =
      some (4, [(0, 0), (-1, 0), (-1, 1), (-1, 2), (0, 2)]) ∧
    specMinDist binWalled (0, 0) (0, 2) = some 6 := by
  refine ⟨by decide, by decide⟩

/-- Claim C8: on `binBlocked` no route of free tiles from (0,0) to (0,2) exists
inside the grid, yet aStarSearch does not return the `(MAXDIST, [])`
sentinel: it finds a length-4 "path" through the out-of-grid tiles that
Python's negative indexing maps onto column 2. -/
theorem c8_no_path_but_no_sentinel :
    aStarSearch 300 (0, 0) (0, 2) binBlocked getManhattanDist =
      some (4, [(0, 0), (-1, 0), (-1, 1), (-1, 2), (0, 2)]) ∧
    specMinDist binBlocked (0, 0) (0, 2) = none := by
  refine ⟨by decide, by decide⟩

/-- Claim C4: on the scenario-A grid with default episode length 2, getMScores
returns exactly `{2 : (5, [Agent, Coin5])}`; the table has no entry with
key 0, contrary to the claimed additional entry `{0 : (0, [Agent])}`.  The
root node contributes cost 0 and budget 2, so its trajectory length is
already 2, not 0. -/
theorem c4_no_zero_key :
    getMScores 100 10 gridA 2 = some [(2, (5, [agentA, coinA5]))] ∧
    tLookup [(2, (5, [agentA, coinA5]))] 0 = none := by
  refine ⟨by decide, by decide⟩

/-- Claim C4, amended: on the scenario-A grid with default episode length 2, the
returned table is exactly `{2 : (5, [Agent, Coin5])}`. -/
theorem c4_scenario_a_table :
    getMScores 100 10 gridA 2 = some [(2, (5, [agentA, coinA5]))] := by
  decide

/-- Claim C5: a rectangular body with no Agent is parsed without any
error — parseEnv performs no content validation and no ConfigurationError
exists in the code — and the missing Agent only surfaces later, inside
getMScores (an IndexError in Python, `none` here), i.e. not before the
search. -/
theorem c5_no_validation_counterexample :
    parseEnv 7 [[".", "."], [".", "."]] =
      some (7, [[".", "."], [".", "."]]) ∧
    findAll "A" [[".", "."], [".", "."]] = [] ∧
    getMScores 50 50 [[".", "."], [".", "."]] 7 = none := by
  refine ⟨by decide, by decide, by decide⟩

/-- Claim C5, amended: parseEnv performs no content validation — every
rectangular body, whatever its tokens and however many Agents it contains,
is parsed into the episode length and the transposed grid; only a
non-rectangular body fails, with numpy's ValueError at the transpose
rather than any ConfigurationError; and a grid body without an Agent
instead makes getMScores itself fail when seeding the root node. -/
theorem c5_parse_never_fails :
    (∀ (n : Int) (rows : List (List String)), isRectangular rows = true →
      parseEnv n rows = some (n, rows.transpose)) ∧
    (∀ (n : Int) (rows : List (List String)), isRectangular rows = false →
      parseEnv n rows = none) ∧
    (∀ (fuel dlsFuel : Nat) (grid : Grid) (limit : Int),
      findAll "A" grid = [] → getMScores fuel dlsFuel grid limit = none) := by
  refine ⟨?_, ?_, ?_⟩
  · intro n rows h
    simp [parseEnv, h]
  · intro n rows h
    simp [parseEnv, h]
  · intro fuel dlsFuel grid limit h
    unfold getMScores
    rw [h]

/-- Witness for the amended C5 theorem: a concrete rectangular agent-less
body parses, a ragged body fails, and the agent-less search fails. -/
theorem c5_parse_never_fails_witness :
    parseEnv 7 [[".", "."], [".", "."]] =
      some (7, ([[".", "."], [".", "."]] : List (List String)).transpose) ∧
    parseEnv 7 [[".", "."], ["."]] = none ∧
    getMScores 3 3 [[".", "."]] 1 = none :=
  ⟨c5_parse_never_fails.1 7 [[".", "."], [".", "."]] (by decide),
    c5_parse_never_fails.2.1 7 [[".", "."], ["."]] (by decide),
    c5_parse_never_fails.2.2 3 3 [[".", "."]] 1 (by decide)⟩

/-- Python read at a non-negative index is a plain list lookup. -/
theorem pyIdx_of_nonneg {α : Type} (l : List α) (i : Int) (h : 0 ≤ i) :
    pyIdx l i = l[i.toNat]? := by
  unfold pyIdx
  rw [if_pos h]

/-- Nested Python read at non-negative coordinates is a plain nested list
lookup. -/
theorem pyIdx2_of_nonneg {α : Type} (g : List (List α)) (t : Tile)
    (h1 : 0 ≤ t.1) (h2 : 0 ≤ t.2) :
    pyIdx2 g t = (g[t.1.toNat]?).bind (fun col => col[t.2.toNat]?) := by
  unfold pyIdx2
  rw [pyIdx_of_nonneg g t.1 h1]
  cases g[t.1.toNat]? with
  | none => rfl
  | some col => exact pyIdx_of_nonneg col t.2 h2

/-- Python reads commute with mapping a function over the list. -/
theorem pyIdx_map {α β : Type} (f : α → β) (l : List α) (i : Int) :
    pyIdx (l.map f) i = (pyIdx l i).map f := by
  unfold pyIdx
  by_cases h1 : (0 : Int) ≤ i
  · simp [h1]
  · by_cases h2 : (0 : Int) ≤ (l.length : Int) + i
    · simp [h1, h2]
    · simp [h1, h2]

/-- Nested Python reads commute with mapping a function over every tile. -/
theorem pyIdx2_map {α β : Type} (f : α → β) (g : List (List α)) (t : Tile) :
    pyIdx2 (g.map (List.map f)) t = (pyIdx2 g t).map f := by
  unfold pyIdx2
  rw [pyIdx_map]
  cases pyIdx g t.1 with
  | none => rfl
  | some col => exact pyIdx_map f col t.2

/-- Python read of a Python write at non-negative coordinates: the written
tile reads back the new value when the tile exists, every other tile is
untouched. -/
theorem pyIdx2_pySet2_of_nonneg {α : Type} (g : List (List α)) (s t : Tile)
    (v : α) (hs1 : 0 ≤ s.1) (hs2 : 0 ≤ s.2) (ht1 : 0 ≤ t.1) (ht2 : 0 ≤ t.2) :
    pyIdx2 (pySet2 g s v) t =
      if t = s ∧ (pyIdx2 g s).isSome then some v else pyIdx2 g t := by
  obtain ⟨s1, s2⟩ := s
  obtain ⟨t1, t2⟩ := t
  simp only at hs1 hs2 ht1 ht2
  unfold pySet2
  cases hcol : pyIdx g s1 with
  | none =>
    have hnone : pyIdx2 g (s1, s2) = none := by
      unfold pyIdx2
      rw [hcol]
    rw [hnone]
    simp
  | some col =>
    dsimp only
    have hcolE : g[s1.toNat]? = some col := by
      rw [← pyIdx_of_nonneg g s1 hs1]
      exact hcol
    have hlt1 : s1.toNat < g.length := by
      by_contra hge
      rw [List.getElem?_eq_none (by omega)] at hcolE
      exact Option.noConfusion hcolE
    have hS : pyIdx2 g (s1, s2) = col[s2.toNat]? := by
      rw [pyIdx2_of_nonneg g (s1, s2) hs1 hs2]
      simp only
      rw [hcolE, Option.some_bind]
    have hset_outer :
        pySet g s1 (pySet col s2 v) = g.set s1.toNat (col.set s2.toNat v) := by
      unfold pySet
      rw [if_pos hs1, if_pos hs2]
    rw [hset_outer, hS,
      pyIdx2_of_nonneg _ (t1, t2) ht1 ht2, pyIdx2_of_nonneg g (t1, t2) ht1 ht2]
    simp only
    rw [List.getElem?_set]
    by_cases h1 : s1.toNat = t1.toNat
    · have h1' : t1 = s1 := by omega
      rw [if_pos h1, if_pos hlt1, Option.some_bind, List.getElem?_set]
      by_cases h2 : s2.toNat = t2.toNat
      · have h2' : t2 = s2 := by omega
        rw [if_pos h2]
        by_cases hlt2 : s2.toNat < col.length
        · rw [if_pos hlt2]
          have : col[s2.toNat]? = some col[s2.toNat] :=
            List.getElem?_eq_getElem hlt2
          rw [this]
          simp [h1', h2']
        · rw [if_neg hlt2]
          have hcn : col[s2.toNat]? = none := List.getElem?_eq_none (by omega)
          rw [hcn]
          have h1n : t1.toNat = s1.toNat := by omega
          simp only [Option.isSome_none, Bool.false_eq_true, and_false, if_false]
          rw [h1n, hcolE, Option.some_bind]
          have h2n : t2.toNat = s2.toNat := by omega
          rw [h2n, hcn]
      · have h2' : ¬ ((t1, t2) = ((s1, s2) : Tile)) := by
          simp only [Prod.mk.injEq]
          intro h
          omega
        rw [if_neg h2]
        have h1n : t1.toNat = s1.toNat := by omega
        rw [h1n, hcolE, Option.some_bind]
        simp [h2']
    · have h1' : ¬ ((t1, t2) = ((s1, s2) : Tile)) := by
        simp only [Prod.mk.injEq]
        intro h
        omega
      rw [if_neg h1]
      simp [h1']

/-- Claim C2: for the grid `A C1 C2` and the pair of the two coins, the occupancy
grid built by getDist leaves the Agent tile (0,0) free (entry 0), although
the Agent is not a member of the pair; the claim demands that it be blocked.
Only the `"."` and `"A"` tokens are exempted by the construction. -/
theorem c2_agent_tile_left_free :
    findAll "A" [["A"], ["C1"], ["C2"]] = [⟨"A", 0, 0, 0⟩] ∧
    findAll "C" [["A"], ["C1"], ["C2"]] = [⟨"C", 1, 0, 1⟩, ⟨"C", 2, 0, 2⟩] ∧
    mkOccupancy [["A"], ["C1"], ["C2"]] (1, 0) (2, 0) = [[0], [0], [0]] ∧
    pyIdx2 (mkOccupancy [["A"], ["C1"], ["C2"]] (1, 0) (2, 0))
      ((0 : Int), (0 : Int)) = some 0 := by
  refine ⟨by decide, by decide, by decide, by decide⟩

/-- Claim C2, amended: in the occupancy grid that getDist builds for a pair, an
in-bounds tile is free (0) iff it is the start tile, the end tile, an empty
tile `"."`, or the Agent tile `"A"`; every other tile — walls and all other
interactable objects — is blocked (1).  In particular the Agent tile is
always left free, whether or not the Agent belongs to the pair. -/
theorem c2_occupancy_characterisation (grid : Grid) (s e : Tile) (x y : Int)
    (tile : String) (hs1 : 0 ≤ s.1) (hs2 : 0 ≤ s.2) (he1 : 0 ≤ e.1)
    (he2 : 0 ≤ e.2) (hx : 0 ≤ x) (hy : 0 ≤ y)
    (ht : pyIdx2 grid (x, y) = some tile) :
    pyIdx2 (mkOccupancy grid s e) (x, y) =
      some (if (x, y) = s ∨ (x, y) = e ∨ tile = "." ∨ tile = "A"
        then (0 : Int) else 1) := by
  unfold mkOccupancy
  rw [pyIdx2_pySet2_of_nonneg _ e (x, y) 0 he1 he2 hx hy,
    pyIdx2_pySet2_of_nonneg _ s e 0 hs1 hs2 he1 he2,
    pyIdx2_pySet2_of_nonneg _ s (x, y) 0 hs1 hs2 hx hy]
  simp only [pyIdx2_map, ht, Option.map_some', Option.isSome_map']
  by_cases hxe : ((x, y) : Tile) = e
  · subst hxe
    by_cases hxs : ((x, y) : Tile) = s
    · subst hxs
      simp [ht]
    · simp [hxs, ht]
  · by_cases hxs : ((x, y) : Tile) = s
    · subst hxs
      simp [hxe, ht]
    · simp [hxs, hxe]

/-- Reading back the key just written into the table yields the new
value. -/
theorem tLookup_tSet_self (t : Table) (k : Int) (v : Int × List Object) :
    tLookup (tSet t k v) k = some v := by
  induction t with
  | nil => simp [tSet, tLookup]
  | cons e rest ih =>
    by_cases h : e.1 = k
    · simp [tSet, tLookup, h]
    · simp [tSet, tLookup, h, ih]

/-- Claim C7: after a dequeued node is folded into the table, the entry at the
node's trajectory length is the node's (score, path) if the length was
absent, the node's (score, path) if its score strictly exceeds the stored
score, and the previously stored entry otherwise — in particular an
equal-scoring node never displaces the entry discovered first. -/
theorem c7_update_rule (t : Table) (n : DLSNode) :
    tLookup (updateTable t n) n.getTrajLen =
      some (match tLookup t n.getTrajLen with
        | none => (n.score, n.getPath)
        | some sp => if sp.1 < n.score then (n.score, n.getPath) else sp) := by
  unfold updateTable
  cases h : tLookup t n.getTrajLen with
  | none => exact tLookup_tSet_self t n.getTrajLen (n.score, n.getPath)
  | some sp =>
    dsimp only
    by_cases hgt : n.score > sp.1
    · have hlt : sp.1 < n.score := hgt
      rw [if_pos hgt, if_pos hlt]
      exact tLookup_tSet_self t n.getTrajLen (n.score, n.getPath)
    · have hlt : ¬ sp.1 < n.score := hgt
      rw [if_neg hgt, if_neg hlt, h]

/-- Every object produced by findAll carries the requested identifier. -/
theorem findAll_identifier {target : String} {grid : Grid} {o : Object}
    (h : o ∈ findAll target grid) : o.identifier = target := by
  unfold findAll at h
  rw [List.mem_flatten] at h
  obtain ⟨l, hl, hol⟩ := h
  rw [List.mem_map] at hl
  obtain ⟨xcol, _, rfl⟩ := hl
  rw [List.mem_filterMap] at hol
  obtain ⟨ytile, _, heq⟩ := hol
  rw [Option.map_eq_some'] at heq
  obtain ⟨v, _, rfl⟩ := heq
  rfl

/-- Characterisation of the children produced by one expansion step: each
child comes from a key object that is neither the current object nor on the
parent chain, its edge weight fits into the budget, and its fields are the
source's cost/budget/score updates. -/
theorem dlsChildren_mem {fuel : Nat} {grid : Grid} {keys : List Object}
    {n c : DLSNode} (h : c ∈ dlsChildren fuel grid keys n) :
    ∃ nb, nb ∈ keys ∧ ¬ (nb = n.obj ∨ nb ∈ n.visitedRev) ∧
      c.obj = nb ∧ c.visitedRev = n.obj :: n.visitedRev ∧
      c.cost = n.cost +
        (convertToGraph fuel (omitFromGrid grid n.getVisited)).2 n.obj nb ∧
      c.budget = n.budget -
        (convertToGraph fuel (omitFromGrid grid n.getVisited)).2 n.obj nb +
        (if nb.identifier = "SD" then nb.value else 0) ∧
      c.score = n.score + (if nb.identifier = "C" then nb.value else 0) ∧
      (convertToGraph fuel (omitFromGrid grid n.getVisited)).2 n.obj nb
        ≤ n.budget := by
  unfold dlsChildren at h
  rw [List.mem_filterMap] at h
  obtain ⟨nb, hnb, heq⟩ := h
  by_cases h1 : nb = n.obj ∨ nb ∈ n.visitedRev
  · rw [if_pos h1] at heq
    cases heq
  · rw [if_neg h1] at heq
    by_cases h2 :
        (convertToGraph fuel (omitFromGrid grid n.getVisited)).2 n.obj nb
          > n.budget
    · rw [if_pos h2] at heq
      cases heq
    · rw [if_neg h2] at heq
      injection heq with heq
      subst heq
      exact ⟨nb, hnb, h1, rfl, rfl, rfl, rfl, rfl, le_of_not_lt h2⟩

/-- Sum of the values of the coin objects in a list. -/
def coinSum (l : List Object) : Int :=
  ((l.filter (fun o => decide (o.identifier = "C"))).map Object.value).sum

/-- Coin sum of a cons: the head contributes its value when it is a coin. -/
theorem coinSum_cons (o : Object) (l : List Object) :
    coinSum (o :: l) =
      (if o.identifier = "C" then o.value else 0) + coinSum l := by
  unfold coinSum
  by_cases h : o.identifier = "C"
  · simp [List.filter_cons, h]
  · simp [List.filter_cons, h]

/-- Search-node invariant: the node's path (current object first) has no
duplicates, consists of graph objects, and its score is the sum of the coin
values on it. -/
def goodNode (grid : Grid) (n : DLSNode) : Prop :=
  (n.obj :: n.visitedRev).Nodup ∧
  (∀ o ∈ n.obj :: n.visitedRev, o ∈ nonObstacles grid) ∧
  n.score = coinSum (n.obj :: n.visitedRev)

/-- One expansion step preserves the search-node invariant. -/
theorem dlsChildren_good {fuel : Nat} {grid : Grid} {keys : List Object}
    {n : DLSNode} (hkeys : keys = nonObstacles grid)
    (hg : goodNode grid n) :
    ∀ c ∈ dlsChildren fuel grid keys n, goodNode grid c := by
  intro c hc
  obtain ⟨nb, hnbk, hnotin, hobj, hvis, hcost, hbudget, hscore, hle⟩ :=
    dlsChildren_mem hc
  have hnb' : nb ∉ n.obj :: n.visitedRev := by
    rw [List.mem_cons]
    exact hnotin
  refine ⟨?_, ?_, ?_⟩
  · rw [hobj, hvis, List.nodup_cons]
    exact ⟨hnb', hg.1⟩
  · intro o ho
    rw [hobj, hvis] at ho
    rw [List.mem_cons] at ho
    cases ho with
    | inl h => subst h; rw [← hkeys]; exact hnbk
    | inr h => exact hg.2.1 o h
  · rw [hscore, hobj, hvis, hg.2.2, coinSum_cons nb (n.obj :: n.visitedRev)]
    omega

/-- A table whose key list is the singleton `[limit]` is a single entry at
`limit`. -/
theorem table_singleton {t : Table} {limit : Int}
    (h : t.map Prod.fst = [limit]) : ∃ v, t = [(limit, v)] := by
  cases t with
  | nil => simp at h
  | cons e rest =>
    simp only [List.map_cons, List.cons.injEq] at h
    obtain ⟨h1, h2⟩ := h
    rw [List.map_eq_nil_iff] at h2
    refine ⟨e.2, ?_⟩
    rw [h2]
    cases e
    simp_all

/-- Folding a node whose trajectory length is `limit` into an empty or
`[limit]`-keyed table keeps the key list at exactly `[limit]`. -/
theorem updateTable_keys {t : Table} {n : DLSNode} {limit : Int}
    (hL : n.getTrajLen = limit) (ht : t = [] ∨ t.map Prod.fst = [limit]) :
    (updateTable t n).map Prod.fst = [limit] := by
  cases ht with
  | inl h =>
    subst h
    simp [updateTable, tLookup, tSet, hL]
  | inr h =>
    obtain ⟨v, rfl⟩ := table_singleton h
    unfold updateTable
    rw [hL]
    have hl : tLookup [(limit, v)] limit = some v := by simp [tLookup]
    rw [hl]
    dsimp only
    by_cases hgt : n.score > v.1
    · rw [if_pos hgt]
      simp [tSet]
    · rw [if_neg hgt]
      rfl

/-- In a grid without SD tokens no graph object is an SD button. -/
theorem nonObstacles_no_sd {grid : Grid} (hsd : findAll "SD" grid = []) :
    ∀ o ∈ nonObstacles grid, o.identifier ≠ "SD" := by
  intro o ho
  unfold nonObstacles at ho
  rw [hsd, List.append_nil, List.mem_append] at ho
  cases ho with
  | inl h => rw [findAll_identifier h]; decide
  | inr h => rw [findAll_identifier h]; decide

/-- Main-loop invariant for SD-free grids: when every queued node satisfies
cost + budget = limit, a successful drain of a non-trivial state leaves a
table whose key list is exactly `[limit]`. -/
theorem mLoop_keys (fuel : Nat) (grid : Grid) (keys : List Object)
    (limit : Int) (hkeys : ∀ o ∈ keys, o.identifier ≠ "SD") :
    ∀ (dlsFuel : Nat) (q : List DLSNode) (t t' : Table),
      (∀ n ∈ q, n.cost + n.budget = limit) →
      (t = [] ∨ t.map Prod.fst = [limit]) →
      (q ≠ [] ∨ t.map Prod.fst = [limit]) →
      mLoop fuel grid keys dlsFuel q t = some t' →
      t'.map Prod.fst = [limit] := by
  intro dlsFuel
  induction dlsFuel with
  | zero =>
    intro q t t' hq ht hqt h
    unfold mLoop at h
    by_cases hq0 : q = []
    · rw [if_pos hq0] at h
      injection h with h
      subst h
      cases hqt with
      | inl h1 => exact absurd hq0 h1
      | inr h1 => exact h1
    · rw [if_neg hq0] at h
      cases h
  | succ f ih =>
    intro q t t' hq ht hqt h
    cases q with
    | nil =>
      unfold mLoop at h
      injection h with h
      subst h
      cases hqt with
      | inl h1 => exact absurd rfl h1
      | inr h1 => exact h1
    | cons n rest =>
      unfold mLoop at h
      have hn : n.cost + n.budget = limit := hq n (List.mem_cons_self n rest)
      have hupd : (updateTable t n).map Prod.fst = [limit] :=
        updateTable_keys hn ht
      refine ih (rest ++ dlsChildren fuel grid keys n) (updateTable t n) t'
        ?_ (Or.inr hupd) (Or.inr hupd) h
      intro m hm
      rw [List.mem_append] at hm
      cases hm with
      | inl hmr => exact hq m (List.mem_cons_of_mem n hmr)
      | inr hmc =>
        obtain ⟨nb, hnbk, _, _, _, hcost, hbudget, _, _⟩ := dlsChildren_mem hmc
        have hnsd : nb.identifier ≠ "SD" := hkeys nb hnbk
        rw [hcost, hbudget, if_neg hnsd]
        omega

/-- Claim C3: on a grid with no SD device, a successful getMScores run returns a
table whose key list is exactly the singleton `[defaultLimit]`: every
dequeued node keeps cost + budget equal to the default limit, so the only
trajectory length ever recorded is the default one. -/
theorem c3_no_sd_single_key (fuel dlsFuel : Nat) (grid : Grid) (limit : Int)
    (t : Table) (hsd : findAll "SD" grid = [])
    (h : getMScores fuel dlsFuel grid limit = some t) :
    t.map Prod.fst = [limit] := by
  unfold getMScores at h
  cases hA : findAll "A" grid with
  | nil =>
    rw [hA] at h
    cases h
  | cons a rest =>
    rw [hA] at h
    dsimp only at h
    refine mLoop_keys fuel grid (convertToGraph fuel grid).1 limit
      ?_ dlsFuel _ [] t ?_ (Or.inl rfl) (Or.inl (by simp)) h
    · intro o ho
      exact nonObstacles_no_sd hsd o ho
    · intro m hm
      rw [List.mem_singleton] at hm
      subst hm
      exact zero_add limit

/-- Witness for C3 at the scenario-A grid (no SD devices, limit 2). -/
theorem c3_no_sd_single_key_witness :
    findAll "SD" gridA = [] ∧
    ([(2, (5, [agentA, coinA5]))] : Table).map Prod.fst = [2] :=
  ⟨by decide, c3_no_sd_single_key 100 10 gridA 2 _ (by decide) (by decide)⟩

/-- Mapped sums over a sublist of value-nonnegative objects are bounded by
the full sum. -/
theorem sublist_map_sum_le {f : Object → Int} {l₁ l₂ : List Object}
    (h : List.Sublist l₁ l₂) (hf : ∀ x ∈ l₂, 0 ≤ f x) :
    (l₁.map f).sum ≤ (l₂.map f).sum := by
  induction h with
  | slnil => simp
  | cons a h ih =>
    simp only [List.map_cons, List.sum_cons]
    have h0 : 0 ≤ f a := hf a (List.mem_cons_self _ _)
    have hrec := ih (fun x hx => hf x (List.mem_cons_of_mem _ hx))
    omega
  | cons₂ a h ih =>
    simp only [List.map_cons, List.sum_cons]
    have hrec := ih (fun x hx => hf x (List.mem_cons_of_mem _ hx))
    omega

/-- Mapped sums over a sub-permutation of value-nonnegative objects are
bounded by the full sum. -/
theorem subperm_map_sum_le {f : Object → Int} {l₁ l₂ : List Object}
    (h : List.Subperm l₁ l₂) (hf : ∀ x ∈ l₂, 0 ≤ f x) :
    (l₁.map f).sum ≤ (l₂.map f).sum := by
  obtain ⟨l, hperm, hsub⟩ := h
  have h1 : (l.map f).sum = (l₁.map f).sum := (hperm.map f).sum_eq
  rw [← h1]
  exact sublist_map_sum_le hsub hf

/-- Coin sums over value-nonnegative coins are non-negative. -/
theorem coinSum_nonneg {l : List Object}
    (h : ∀ o ∈ l, o.identifier = "C" → 0 ≤ o.value) : 0 ≤ coinSum l := by
  unfold coinSum
  apply List.sum_nonneg
  intro x hx
  rw [List.mem_map] at hx
  obtain ⟨o, ho, rfl⟩ := hx
  rw [List.mem_filter] at ho
  exact h o ho.1 (by simpa using ho.2)

/-- A duplicate-free list of objects drawn from `L` has a coin sum bounded
by the coin sum of `L`. -/
theorem coinSum_le {l L : List Object} (hnd : l.Nodup)
    (hsub : ∀ o ∈ l, o ∈ L)
    (hv : ∀ o ∈ L, o.identifier = "C" → 0 ≤ o.value) :
    coinSum l ≤ coinSum L := by
  unfold coinSum
  apply subperm_map_sum_le
  · apply List.subperm_of_subset
    · exact hnd.filter _
    · intro o ho
      rw [List.mem_filter] at ho ⊢
      exact ⟨hsub o ho.1, ho.2⟩
  · intro x hx
    rw [List.mem_filter] at hx
    exact hv x hx.1 (by simpa using hx.2)

/-- The coin sum over all graph objects is the sum of all coin values of
the grid. -/
theorem coinSum_nonObstacles (grid : Grid) :
    coinSum (nonObstacles grid) =
      ((findAll "C" grid).map Object.value).sum := by
  unfold coinSum nonObstacles
  congr 1
  rw [List.filter_append, List.filter_append]
  have hA : (findAll "A" grid).filter
      (fun o => decide (o.identifier = "C")) = [] := by
    rw [List.filter_eq_nil_iff]
    intro a ha
    simp [findAll_identifier ha]
  have hSD : (findAll "SD" grid).filter
      (fun o => decide (o.identifier = "C")) = [] := by
    rw [List.filter_eq_nil_iff]
    intro a ha
    simp [findAll_identifier ha]
  have hC : (findAll "C" grid).filter
      (fun o => decide (o.identifier = "C")) = findAll "C" grid := by
    rw [List.filter_eq_self]
    intro a ha
    simp [findAll_identifier ha]
  rw [hA, hSD, hC]
  simp

/-- A graph object with coin identifier belongs to the grid's coin list. -/
theorem mem_findAll_c {grid : Grid} {o : Object} (ho : o ∈ nonObstacles grid)
    (hid : o.identifier = "C") : o ∈ findAll "C" grid := by
  unfold nonObstacles at ho
  rw [List.mem_append, List.mem_append] at ho
  rcases ho with (h | h) | h
  · have hcontr : ("A" : String) = "C" := by
      rw [← findAll_identifier h]
      exact hid
    exact absurd hcontr (by decide)
  · exact h
  · have hcontr : ("SD" : String) = "C" := by
      rw [← findAll_identifier h]
      exact hid
    exact absurd hcontr (by decide)

/-- Table invariant for the score-bound claim: every entry's score lies
between 0 and the grid's total coin value. -/
def tableBounded (grid : Grid) (t : Table) : Prop :=
  ∀ e ∈ t, 0 ≤ e.2.1 ∧ e.2.1 ≤ coinSum (nonObstacles grid)

/-- Membership after a table write: an entry was present before or is the
new binding. -/
theorem tSet_mem {t : Table} {k : Int} {v : Int × List Object}
    {e : Int × (Int × List Object)} (h : e ∈ tSet t k v) :
    e ∈ t ∨ e = (k, v) := by
  induction t with
  | nil =>
    right
    simpa [tSet] using h
  | cons a rest ih =>
    unfold tSet at h
    by_cases ha : a.1 = k
    · rw [if_pos ha] at h
      rw [List.mem_cons] at h
      cases h with
      | inl h1 => right; exact h1
      | inr h1 => left; exact List.mem_cons_of_mem a h1
    · rw [if_neg ha] at h
      rw [List.mem_cons] at h
      cases h with
      | inl h1 => left; rw [h1]; exact List.mem_cons_self a rest
      | inr h1 =>
        cases ih h1 with
        | inl h2 => left; exact List.mem_cons_of_mem a h2
        | inr h2 => right; exact h2

/-- Folding a node with bounded score into a bounded table keeps the table
bounded. -/
theorem updateTable_bounded {grid : Grid} {t : Table} {n : DLSNode}
    (ht : tableBounded grid t)
    (hn : 0 ≤ n.score ∧ n.score ≤ coinSum (nonObstacles grid)) :
    tableBounded grid (updateTable t n) := by
  intro e he
  unfold updateTable at he
  cases hL : tLookup t n.getTrajLen with
  | none =>
    rw [hL] at he
    dsimp only at he
    cases tSet_mem he with
    | inl h1 => exact ht e h1
    | inr h1 => rw [h1]; exact hn
  | some sp =>
    rw [hL] at he
    dsimp only at he
    by_cases hgt : n.score > sp.1
    · rw [if_pos hgt] at he
      cases tSet_mem he with
      | inl h1 => exact ht e h1
      | inr h1 => rw [h1]; exact hn
    · rw [if_neg hgt] at he
      exact ht e he

/-- A node satisfying the search invariant has a score between 0 and the
grid's total coin value. -/
theorem goodNode_score_bounds {grid : Grid} {n : DLSNode}
    (hg : goodNode grid n)
    (hv : ∀ o ∈ nonObstacles grid, o.identifier = "C" → 0 ≤ o.value) :
    0 ≤ n.score ∧ n.score ≤ coinSum (nonObstacles grid) := by
  rw [hg.2.2]
  exact ⟨coinSum_nonneg (fun o ho h => hv o (hg.2.1 o ho) h),
    coinSum_le hg.1 hg.2.1 hv⟩

/-- Main-loop invariant for the score bounds: draining a queue of invariant
nodes into a bounded table leaves a bounded table. -/
theorem mLoop_bounded (fuel : Nat) (grid : Grid) (keys : List Object)
    (hkeys : keys = nonObstacles grid)
    (hv : ∀ o ∈ nonObstacles grid, o.identifier = "C" → 0 ≤ o.value) :
    ∀ (dlsFuel : Nat) (q : List DLSNode) (t t' : Table),
      (∀ n ∈ q, goodNode grid n) → tableBounded grid t →
      mLoop fuel grid keys dlsFuel q t = some t' → tableBounded grid t' := by
  intro dlsFuel
  induction dlsFuel with
  | zero =>
    intro q t t' hq ht h
    unfold mLoop at h
    by_cases hq0 : q = []
    · rw [if_pos hq0] at h
      injection h with h
      subst h
      exact ht
    · rw [if_neg hq0] at h
      cases h
  | succ f ih =>
    intro q t t' hq ht h
    cases q with
    | nil =>
      unfold mLoop at h
      injection h with h
      subst h
      exact ht
    | cons n rest =>
      unfold mLoop at h
      have hn : goodNode grid n := hq n (List.mem_cons_self n rest)
      refine ih (rest ++ dlsChildren fuel grid keys n) (updateTable t n) t'
        ?_ (updateTable_bounded ht (goodNode_score_bounds hn hv)) h
      intro m hm
      rw [List.mem_append] at hm
      cases hm with
      | inl hmr => exact hq m (List.mem_cons_of_mem n hmr)
      | inr hmc => exact dlsChildren_good hkeys hn m hmc

/-- Claim C6: when all coin values of the grid are positive, every entry of a
table returned by getMScores has a score between 0 and the sum of all coin
values: each path's score is the sum of the distinct coins on it, and no
object is ever revisited on a path. -/
theorem c6_score_bounds (fuel dlsFuel : Nat) (grid : Grid) (limit : Int)
    (t : Table) (hpos : ∀ o ∈ findAll "C" grid, 0 < o.value)
    (h : getMScores fuel dlsFuel grid limit = some t) :
    ∀ e ∈ t, 0 ≤ e.2.1 ∧
      e.2.1 ≤ ((findAll "C" grid).map Object.value).sum := by
  have hv : ∀ o ∈ nonObstacles grid, o.identifier = "C" → 0 ≤ o.value :=
    fun o ho hid => le_of_lt (hpos o (mem_findAll_c ho hid))
  unfold getMScores at h
  cases hA : findAll "A" grid with
  | nil =>
    rw [hA] at h
    cases h
  | cons a rest =>
    rw [hA] at h
    dsimp only at h
    have haid : a.identifier = "A" :=
      findAll_identifier (show a ∈ findAll "A" grid by
        rw [hA]; exact List.mem_cons_self a rest)
    have hroot : goodNode grid (⟨a, [], 0, limit, 0⟩ : DLSNode) := by
      refine ⟨by simp, ?_, ?_⟩
      · intro o ho
        simp only [List.mem_cons, List.not_mem_nil, or_false] at ho
        rw [ho]
        unfold nonObstacles
        rw [List.mem_append, List.mem_append]
        left; left
        rw [hA]
        exact List.mem_cons_self a rest
      · show (0 : Int) = coinSum [a]
        rw [coinSum_cons, haid]
        simp [coinSum]
    have hb := mLoop_bounded fuel grid (convertToGraph fuel grid).1 rfl hv
      dlsFuel _ [] t
      (by
        intro m hm
        simp only [List.mem_singleton] at hm
        subst hm
        exact hroot)
      (fun e he => absurd he (List.not_mem_nil e)) h
    intro e he
    obtain ⟨h1, h2⟩ := hb e he
    rw [coinSum_nonObstacles] at h2
    exact ⟨h1, h2⟩

/-- Witness for C6 at the scenario-A grid. -/
theorem c6_score_bounds_witness :
    (∀ o ∈ findAll "C" gridA, 0 < o.value) ∧
    (∀ e ∈ ([(2, (5, [agentA, coinA5]))] : Table),
      0 ≤ e.2.1 ∧ e.2.1 ≤ ((findAll "C" gridA).map Object.value).sum) :=
  ⟨by decide, c6_score_bounds 100 10 gridA 2 _ (by decide) (by decide)⟩

/-- Weight of a search node: exponentially larger for shorter paths, so
that replacing a node by its at most `K` children strictly shrinks the
total queue weight. -/
def nodeWeight (K : Nat) (n : DLSNode) : Nat :=
  (K + 2) ^ (K - (n.obj :: n.visitedRev).length)

/-- Total weight of a queue of search nodes. -/
def queueWeight (K : Nat) (q : List DLSNode) : Nat :=
  (q.map (nodeWeight K)).sum

/-- The path of an invariant node is never longer than the number of graph
objects: it has no duplicates and draws from that list. -/
theorem goodNode_len_le {grid : Grid} {n : DLSNode} (hg : goodNode grid n) :
    (n.obj :: n.visitedRev).length ≤ (nonObstacles grid).length :=
  (List.subperm_of_subset hg.1 (fun o ho => hg.2.1 o ho)).length_le

/-- A node whose path already exhausts the object list spawns no child:
every key object already occurs on the path. -/
theorem dlsChildren_full {fuel : Nat} {grid : Grid} {keys : List Object}
    {n : DLSNode} (hkeys : keys = nonObstacles grid) (hg : goodNode grid n)
    (hlen : (n.obj :: n.visitedRev).length = keys.length) :
    dlsChildren fuel grid keys n = [] := by
  unfold dlsChildren
  rw [List.filterMap_eq_nil_iff]
  intro nb hnb
  have hsp : List.Subperm (n.obj :: n.visitedRev) keys := by
    rw [hkeys]
    exact List.subperm_of_subset hg.1 (fun o ho => hg.2.1 o ho)
  have hperm : List.Perm (n.obj :: n.visitedRev) keys :=
    hsp.perm_of_length_le (le_of_eq hlen.symm)
  have hmem : nb ∈ n.obj :: n.visitedRev := hperm.mem_iff.mpr hnb
  rw [List.mem_cons] at hmem
  rw [if_pos hmem]

/-- Expanding the front node strictly decreases the queue weight. -/
theorem queueWeight_step (fuel : Nat) (grid : Grid) (keys : List Object)
    (hkeys : keys = nonObstacles grid) (n : DLSNode) (rest : List DLSNode)
    (hg : goodNode grid n) :
    queueWeight keys.length (rest ++ dlsChildren fuel grid keys n) <
      queueWeight keys.length (n :: rest) := by
  have hlen_le : (n.obj :: n.visitedRev).length ≤ keys.length := by
    rw [hkeys]
    exact goodNode_len_le hg
  unfold queueWeight
  rw [List.map_append, List.sum_append, List.map_cons, List.sum_cons]
  have hchild : ((dlsChildren fuel grid keys n).map
      (nodeWeight keys.length)).sum < nodeWeight keys.length n := by
    by_cases hfull : (n.obj :: n.visitedRev).length = keys.length
    · rw [dlsChildren_full hkeys hg hfull]
      unfold nodeWeight
      simp only [List.map_nil, List.sum_nil]
      exact pow_pos (by omega) _
    · have hlt : (n.obj :: n.visitedRev).length < keys.length :=
        lt_of_le_of_ne hlen_le hfull
      have hw : ∀ x ∈ (dlsChildren fuel grid keys n).map
          (nodeWeight keys.length),
          x ≤ (keys.length + 2) ^
            (keys.length - ((n.obj :: n.visitedRev).length + 1)) := by
        intro x hx
        rw [List.mem_map] at hx
        obtain ⟨c, hc, rfl⟩ := hx
        obtain ⟨nb, _, _, hobj, hvis, _⟩ := dlsChildren_mem hc
        simp [nodeWeight, hvis]
      have hsum := List.sum_le_card_nsmul _ _ hw
      rw [List.length_map, smul_eq_mul] at hsum
      have hlenc : (dlsChildren fuel grid keys n).length ≤ keys.length :=
        List.length_filterMap_le _ _
      have hexp : keys.length - (n.obj :: n.visitedRev).length =
          (keys.length - ((n.obj :: n.visitedRev).length + 1)) + 1 := by
        omega
      unfold nodeWeight
      rw [hexp, pow_succ]
      have hb : 0 < (keys.length + 2) ^
          (keys.length - ((n.obj :: n.visitedRev).length + 1)) :=
        pow_pos (by omega) _
      calc ((dlsChildren fuel grid keys n).map
            (nodeWeight keys.length)).sum
          ≤ (dlsChildren fuel grid keys n).length *
            (keys.length + 2) ^
              (keys.length - ((n.obj :: n.visitedRev).length + 1)) := hsum
        _ ≤ keys.length * (keys.length + 2) ^
              (keys.length - ((n.obj :: n.visitedRev).length + 1)) :=
            Nat.mul_le_mul_right _ hlenc
        _ < (keys.length + 2) ^
              (keys.length - ((n.obj :: n.visitedRev).length + 1)) *
            (keys.length + 2) := by
            have hmul := Nat.mul_lt_mul_of_pos_right
              (show keys.length < keys.length + 2 by omega) hb
            rw [Nat.mul_comm (keys.length + 2)] at hmul
            exact hmul
  omega

/-- With fuel above the queue weight the main loop drains completely. -/
theorem mLoop_terminates_of_weight (fuel : Nat) (grid : Grid)
    (keys : List Object) (hkeys : keys = nonObstacles grid) :
    ∀ (dlsFuel : Nat) (q : List DLSNode) (t : Table),
      (∀ n ∈ q, goodNode grid n) →
      queueWeight keys.length q < dlsFuel →
      ∃ t', mLoop fuel grid keys dlsFuel q t = some t' := by
  intro dlsFuel
  induction dlsFuel with
  | zero =>
    intro q t hq hw
    exact absurd hw (Nat.not_lt_zero _)
  | succ f ih =>
    intro q t hq hw
    cases q with
    | nil => exact ⟨t, rfl⟩
    | cons n rest =>
      have hn := hq n (List.mem_cons_self n rest)
      have hstep := queueWeight_step fuel grid keys hkeys n rest hn
      obtain ⟨t', ht'⟩ := ih (rest ++ dlsChildren fuel grid keys n)
        (updateTable t n)
        (by
          intro m hm
          rw [List.mem_append] at hm
          cases hm with
          | inl hmr => exact hq m (List.mem_cons_of_mem n hmr)
          | inr hmc => exact dlsChildren_good hkeys hn m hmc)
        (by omega)
      exact ⟨t', ht'⟩

/-- A successful drain stays successful with one more unit of fuel. -/
theorem mLoop_succ_of_some {fuel : Nat} {grid : Grid} {keys : List Object} :
    ∀ {d : Nat} {q : List DLSNode} {t t' : Table},
      mLoop fuel grid keys d q t = some t' →
      mLoop fuel grid keys (d + 1) q t = some t' := by
  intro d
  induction d with
  | zero =>
    intro q t t' h
    unfold mLoop at h
    by_cases hq : q = []
    · rw [if_pos hq] at h
      injection h with h
      subst hq
      subst h
      rfl
    · rw [if_neg hq] at h
      cases h
  | succ f ih =>
    intro q t t' h
    cases q with
    | nil =>
      unfold mLoop at h
      injection h with h
      subst h
      rfl
    | cons n rest =>
      exact ih h

/-- A successful drain stays successful with any larger fuel. -/
theorem mLoop_mono {fuel : Nat} {grid : Grid} {keys : List Object}
    {d d' : Nat} (hdd : d ≤ d') {q : List DLSNode} {t t' : Table}
    (h : mLoop fuel grid keys d q t = some t') :
    mLoop fuel grid keys d' q t = some t' := by
  induction hdd with
  | refl => exact h
  | step h' ih => exact mLoop_succ_of_some ih

/-- The root node of the search satisfies the node invariant. -/
theorem root_goodNode {grid : Grid} {a : Object} {rest : List Object}
    (hA : findAll "A" grid = a :: rest) (limit : Int) :
    goodNode grid (⟨a, [], 0, limit, 0⟩ : DLSNode) := by
  have haid : a.identifier = "A" :=
    findAll_identifier (show a ∈ findAll "A" grid by
      rw [hA]; exact List.mem_cons_self a rest)
  refine ⟨by simp, ?_, ?_⟩
  · intro o ho
    simp only [List.mem_cons, List.not_mem_nil, or_false] at ho
    rw [ho]
    unfold nonObstacles
    rw [List.mem_append, List.mem_append]
    left; left
    rw [hA]
    exact List.mem_cons_self a rest
  · show (0 : Int) = coinSum [a]
    rw [coinSum_cons, haid]
    simp [coinSum]

/-- Claim C9: on every grid with an agent and every positive default limit the
m-score search terminates: paths never revisit an object, so the FIFO
frontier drains after finitely many dequeues; the result is moreover stable
under any larger fuel bound. -/
theorem c9_search_terminates (fuel : Nat) (grid : Grid) (limit : Int)
    (hA : findAll "A" grid ≠ []) (hlim : 0 < limit) :
    ∃ (dlsFuel : Nat) (t : Table),
      getMScores fuel dlsFuel grid limit = some t ∧
      ∀ d', dlsFuel ≤ d' → getMScores fuel d' grid limit = some t := by
  cases hAe : findAll "A" grid with
  | nil => exact absurd hAe hA
  | cons a rest =>
    have hroot := root_goodNode hAe limit
    obtain ⟨t, ht⟩ := mLoop_terminates_of_weight fuel grid
      (convertToGraph fuel grid).1 rfl
      (queueWeight (convertToGraph fuel grid).1.length
        [⟨a, [], 0, limit, 0⟩] + 1)
      [⟨a, [], 0, limit, 0⟩] []
      (by
        intro m hm
        simp only [List.mem_singleton] at hm
        rw [hm]
        exact hroot)
      (Nat.lt_succ_self _)
    refine ⟨queueWeight (convertToGraph fuel grid).1.length
        [⟨a, [], 0, limit, 0⟩] + 1, t, ?_, ?_⟩
    · unfold getMScores
      rw [hAe]
      exact ht
    · intro d' hd'
      unfold getMScores
      rw [hAe]
      exact mLoop_mono hd' ht

/-- Witness for C9 at the scenario-A grid. -/
theorem c9_search_terminates_witness :
    ∃ (dlsFuel : Nat) (t : Table),
      getMScores 100 dlsFuel gridA 2 = some t ∧
      ∀ d', dlsFuel ≤ d' → getMScores 100 d' gridA 2 = some t :=
  c9_search_terminates 100 gridA 2 (by decide) (by decide)

/-- Witness for the amended C2 theorem at the coin-pair grid: the Agent
tile reads back as free. -/
theorem c2_occupancy_characterisation_witness :
    pyIdx2 (mkOccupancy [["A"], ["C1"], ["C2"]] (1, 0) (2, 0))
      ((0 : Int), (0 : Int)) =
      some (if ((0 : Int), (0 : Int)) = ((1 : Int), (0 : Int)) ∨
          ((0 : Int), (0 : Int)) = ((2 : Int), (0 : Int)) ∨
          "A" = "." ∨ "A" = "A" then (0 : Int) else 1) :=
  c2_occupancy_characterisation [["A"], ["C1"], ["C2"]] (1, 0) (2, 0) 0 0 "A"
    (by decide) (by decide) (by decide) (by decide) (by decide) (by decide)
    (by decide)
